import Mathlib

/-!
Verification of the dipcoin-python-client AMM core against its specification.

The development shallowly embeds the repository's pure core:
  * `math.py`   — AMM pricing engine (`mul_div`, `calc_optimal_coin_values`,
                  `get_amount_out`, `get_amount_in`);
  * `utils.py`  — canonical token ordering (`compare_u8_vector`, BCS string
                  encoding, `sort_type`, `sort_and_get_lp_type`);
  * `client.py` — transaction intent construction (`_split_coin` coin
                  selection, `add_liquidity`, `remove_liquidity`,
                  `swap_exact_in`, `swap_exact_out`).

Python `Decimal` arithmetic runs in the default context: every addition,
subtraction, multiplication and division is rounded to 28 significant
digits with `ROUND_HALF_EVEN` (construction from a string is exact).
The model makes this rounding explicit: `round28`/`round28Z` round an
integral result, `divDecMag`/`divDecInt` compute `int(x / y)` (the
correctly rounded quotient truncated toward zero) and `round28Q` rounds
a rational result.  Exceptions raised by the Python code are modelled
with `Except`: every `raise` site, including the `Decimal` signals of a
zero divisor and the `AttributeError` raised by the `pool.<field>.value`
reads of `client.py` (the `Pool` of `types.py` stores plain ints), is a
distinct `DexError` value.  The external collaborators (pool-state
reader, owned-coin enumerator and call submitter) are explicit function
parameters.
-/

deriving instance DecidableEq for Except

namespace Dipcoin

/-- Every failure the embedded client can signal.  The first six mirror the
`ValueError`/`Decimal` exceptions of `math.py`, the rest the `ValueError`s
raised inside `client.py` and a failure reported by the call submitter. -/
inductive DexError where
  | invalidFeeRate
  | zeroAmount
  | emptyReserves
  | u64Overflow
  | divisionByZero
  | overLimit
  | amountNotPositive
  | invalidSlippage
  | poolNotFound
  | noCoins
  | insufficientBalance
  | attributeError
  | submitFailed (reason : String)
  deriving DecidableEq, Repr

/-- `FEE_SCALE` from `math.py`. -/
def FEE_SCALE : ℕ := 10000

/-- `MAX_FEE_RATE` from `math.py`. -/
def MAX_FEE_RATE : ℕ := 10000

/-- `U64_MAX` from `math.py`: `2^64 - 1`. -/
def U64_MAX : ℕ := 18446744073709551615

/-- Decimal digit count, with a structural fuel argument so that the
kernel can evaluate it (`nDigits n` runs it with fuel `n`, which always
suffices since `n / 10 < n` for `n ≠ 0`). -/
def digitsFuel : ℕ → ℕ → ℕ
  | _, 0 => 0
  | 0, _ + 1 => 1
  | fuel + 1, n + 1 => digitsFuel fuel ((n + 1) / 10) + 1

/-- The number of decimal digits of `n` (`0` for `0`). -/
def nDigits (n : ℕ) : ℕ := digitsFuel n n

/-- The integer nearest `a / b`, ties going to the even candidate: the
`ROUND_HALF_EVEN` rounding of the default `decimal` context. -/
def roundHalfEven (a b : ℕ) : ℕ :=
  if 2 * (a % b) < b then a / b
  else if b < 2 * (a % b) then a / b + 1
  else if a / b % 2 = 0 then a / b else a / b + 1

/-- Context rounding of an integral `Decimal` coefficient: a natural
number of more than 28 digits is rounded half-even to its leading 28
significant digits; below `10^28` it is kept exactly. -/
def round28 (n : ℕ) : ℕ :=
  if n < 10 ^ 28 then n
  else
    let p := 10 ^ (nDigits n - 28)
    roundHalfEven n p * p

/-- Context rounding of a signed integral `Decimal` result: the
magnitude is rounded, the sign is kept. -/
def round28Z (z : ℤ) : ℤ := z.sign * (round28 z.natAbs : ℤ)

/-- The adjusted exponent `⌊log10 (a / b)⌋` of a positive rational: the
digit-count difference, corrected by one when `a / b` falls below the
corresponding power of ten. -/
def decExp (a b : ℕ) : ℤ :=
  let c : ℤ := (nDigits a : ℤ) - (nDigits b : ℤ)
  if 0 ≤ c then (if b * 10 ^ c.toNat ≤ a then c else c - 1)
  else (if b ≤ a * 10 ^ (-c).toNat then c else c - 1)

/-- `int(Decimal(a) / Decimal(b))` on magnitudes, for `b ≠ 0`: the exact
quotient is correctly rounded (half-even) to 28 significant digits at
the adjusted exponent, then truncated toward zero. -/
def divDecMag (a b : ℕ) : ℕ :=
  if a = 0 then 0
  else
    let e := decExp a b
    if e ≤ 27 then
      roundHalfEven (a * 10 ^ (27 - e).toNat) b / 10 ^ (27 - e).toNat
    else
      roundHalfEven a (b * 10 ^ (e - 27).toNat) * 10 ^ (e - 27).toNat

/-- `int(Decimal(x) / Decimal(y))` on signed integral values (`y ≠ 0`):
the rounding acts on the magnitude, the truncation toward zero restores
the sign. -/
def divDecInt (x y : ℤ) : ℤ := x.sign * y.sign * (divDecMag x.natAbs y.natAbs : ℤ)

/-- The correctly rounded 28-significant-digit value of `a / b` itself
(as an exact rational), for `Decimal` divisions whose result is kept
rather than truncated. -/
def divDecQ (a b : ℕ) : ℚ :=
  if a = 0 then 0
  else
    let e := decExp a b
    if e ≤ 27 then
      (roundHalfEven (a * 10 ^ (27 - e).toNat) b : ℚ) / 10 ^ (27 - e).toNat
    else
      ((roundHalfEven a (b * 10 ^ (e - 27).toNat) * 10 ^ (e - 27).toNat : ℕ) : ℚ)

/-- Context rounding of an arbitrary `Decimal` value, represented as a
rational: round the magnitude `|num| / den` and restore the sign. -/
def round28Q (q : ℚ) : ℚ := (q.num.sign : ℚ) * divDecQ q.num.natAbs q.den

/-- `get_amount_out` from `math.py` (lines 46-84).  The `fee_rate == 0`
branch returns `int(reserve_out * amount_in / (reserve_in + amount_in))`
with no validation; a zero denominator there raises a `Decimal` signal,
modelled as `.divisionByZero`.  The general branch validates the fee
rate, the amount and the reserves, then computes the
constant-product-with-fee quotient; every `Decimal` operation rounds its
result to the context's 28 significant digits, and `int()` truncates.
Results above `U64_MAX` are rejected (in the general branch only). -/
def get_amount_out (fee_rate amount_in reserve_in reserve_out : ℕ) :
    Except DexError ℕ :=
  if fee_rate = 0 then
    if reserve_in + amount_in = 0 then .error .divisionByZero
    else .ok (divDecMag (round28 (reserve_out * amount_in))
      (round28 (reserve_in + amount_in)))
  else if fee_rate > MAX_FEE_RATE then .error .invalidFeeRate
  else if amount_in = 0 then .error .zeroAmount
  else if reserve_in = 0 ∨ reserve_out = 0 then .error .emptyReserves
  else
    let fee_multiplier := round28 (FEE_SCALE - fee_rate)
    let coin_in_val_after_fees := round28 (amount_in * fee_multiplier)
    let new_reserve_in :=
      round28 (round28 (reserve_in * FEE_SCALE) + coin_in_val_after_fees)
    let numerator := round28 (coin_in_val_after_fees * reserve_out)
    let amount_out := divDecMag numerator new_reserve_in
    if amount_out > U64_MAX then .error .u64Overflow else .ok amount_out

/-- `get_amount_in` from `math.py` (lines 86-116).  There is no guard
relating `amount_out` to `reserve_out`: the code subtracts and divides.
The subtraction is signed (`Decimal`), so the denominator
`(reserve_out - amount_out) * fee_multiplier` can be negative or zero;
a zero denominator raises a `Decimal` signal (`.divisionByZero`),
otherwise `int()` truncates the rounded quotient toward zero and the
Python-int increment is exact.  Each `Decimal` operation rounds to 28
significant digits. -/
def get_amount_in (fee_rate amount_out reserve_in reserve_out : ℕ) :
    Except DexError ℤ :=
  if fee_rate > MAX_FEE_RATE then .error .invalidFeeRate
  else if amount_out = 0 then .error .zeroAmount
  else if reserve_in = 0 ∨ reserve_out = 0 then .error .emptyReserves
  else
    let fee_multiplier : ℤ := round28Z ((FEE_SCALE : ℤ) - (fee_rate : ℤ))
    let numerator : ℤ :=
      round28Z (round28Z ((reserve_in : ℤ) * (amount_out : ℤ)) * (FEE_SCALE : ℤ))
    let denominator : ℤ :=
      round28Z (round28Z ((reserve_out : ℤ) - (amount_out : ℤ)) * fee_multiplier)
    if denominator = 0 then .error .divisionByZero
    else
      let amount_in := divDecInt numerator denominator + 1
      if amount_in > (U64_MAX : ℤ) then .error .u64Overflow else .ok amount_in

/-- `mul_div` from `math.py` (lines 3-5): `(a * b) / c` with `Decimal`
semantics — the product and the quotient are each rounded to 28
significant digits, and no truncation is applied.  A zero divisor raises
a `Decimal` signal, modelled as `.divisionByZero`. -/
def mul_div (a b c : ℚ) : Except DexError ℚ :=
  if c = 0 then .error .divisionByZero
  else .ok (round28Q (round28Q (a * b) / c))

/-- `calc_optimal_coin_values` from `math.py` (lines 7-38).  Note that the
returned coordinates go through `mul_div`, i.e. an exact division with no
flooring, so they need not be integers. -/
def calc_optimal_coin_values (coin_x_desired coin_y_desired coin_x_reserve
    coin_y_reserve : ℚ) : Except DexError (ℚ × ℚ) :=
  if coin_x_reserve = 0 ∧ coin_y_reserve = 0 then
    .ok (coin_x_desired, coin_y_desired)
  else do
    let coin_y_returned ← mul_div coin_x_desired coin_y_reserve coin_x_reserve
    if coin_y_returned ≤ coin_y_desired then
      return (coin_x_desired, coin_y_returned)
    else
      let coin_x_returned ← mul_div coin_y_desired coin_x_reserve coin_y_reserve
      if coin_x_returned > coin_x_desired then throw .overLimit
      else return (coin_x_returned, coin_y_desired)

/-- `compare_u8_vector` from `utils.py` (lines 3-26): byte-wise
lexicographic comparison, ties broken by length, equality yielding
`false`. -/
def compare_u8_vector : List ℕ → List ℕ → Bool
  | [], [] => false
  | [], _ :: _ => true
  | _ :: _, [] => false
  | a :: as, b :: bs =>
      if a < b then true else if b < a then false else compare_u8_vector as bs

/-- The ULEB128 length header emitted by `canoser.StrT.encode`: 7-bit
groups, least significant first, continuation bit on all but the last. -/
def uleb128 (n : ℕ) : List ℕ :=
  if h : n < 128 then [n] else (n % 128 + 128) :: uleb128 (n / 128)
decreasing_by
  exact Nat.div_lt_self (by omega) (by omega)

/-- The byte sequence of a token-type identifier.  Identifiers are ASCII,
so UTF-8 encoding is modelled as the character-code sequence. -/
def strBytes (s : String) : List ℕ := s.data.map Char.toNat

/-- `canoser.StrT.encode`: ULEB128 length header followed by the bytes. -/
def strT_encode (s : String) : List ℕ := uleb128 (strBytes s).length ++ strBytes s

/-- `is_type_x_smaller_than_type_y` from `utils.py` (lines 28-41). -/
def is_type_x_smaller_than_type_y (type_x type_y : String) : Bool :=
  compare_u8_vector (strT_encode type_x) (strT_encode type_y)

/-- `sort_type` from `utils.py` (lines 43-48). -/
def sort_type (coin_x_type coin_y_type : String) : String × String :=
  if is_type_x_smaller_than_type_y coin_x_type coin_y_type then
    (coin_x_type, coin_y_type)
  else
    (coin_y_type, coin_x_type)

/-- `sort_and_get_lp_type` from `utils.py` (lines 61-64). -/
def sort_and_get_lp_type (packageId type_x type_y : String) :
    String × String × String :=
  let st := sort_type type_x type_y
  (st.1, st.2, packageId ++ "::manage::LP<" ++ st.1 ++ ", " ++ st.2 ++ ">")

/-- An owned coin object as enumerated by the collaborator (`GetCoins`):
its object id and its balance. -/
structure CoinObj where
  coinObjectId : String
  balance : ℤ
  deriving DecidableEq, Repr

/-- The pool snapshot of `types.py` (numeric fields only; the id is the
lookup key).  All fields are read through the pool-state collaborator. -/
structure Pool where
  bal_x : ℕ
  bal_y : ℕ
  fee_bal_x : ℕ
  fee_bal_y : ℕ
  lp_supply : ℕ
  fee_rate : ℕ
  min_liquidity : ℕ
  deriving DecidableEq, Repr

/-- One positional argument of a `move_call`: an object id, a plain
integer, or the handle produced by the split-coin sub-protocol (the
selected coin object ids together with the split amount). -/
inductive Arg where
  | obj (id : String)
  | int (n : ℤ)
  | coin (split : List String × ℤ)
  deriving DecidableEq, Repr

/-- The call descriptor built by a trading operation: entry-point target,
ordered argument list and ordered type-argument list. -/
structure CallDescriptor where
  target : String
  arguments : List Arg
  typeArguments : List String
  deriving DecidableEq, Repr

/-- The dictionary each public trading operation returns. -/
structure ResultDict where
  txId : String
  status : Bool
  error : Option String
  deriving DecidableEq, Repr

/-- `CONTRACT_CONSTANTS["testnet"].package_id` from `constants.py`. -/
def package_id : String :=
  "0xa21247f737d7ff2b2b2a03411f4693001b24ad2e217b863d1a3dbfadee9ddd3c"

/-- `CONTRACT_CONSTANTS["testnet"].version_id` from `constants.py`. -/
def version_id : String :=
  "0xd4d49b0915459f013072d2c10139eeacac9865fedfc71108cc98565e446370fa"

/-- `CONTRACT_CONSTANTS["testnet"].global_id` from `constants.py`. -/
def global_id : String :=
  "0x73ea415d3adb8c5ba4cc6322eaaf40f8d99ee54d979891df467ff478ba2154ff"

/-- The accumulation loop of `_split_coin` (`client.py` lines 229-235):
append each coin object id in the order supplied, add its balance to the
running total, and stop as soon as the total reaches the requested
amount. -/
def selectLoop (amount : ℤ) : List CoinObj → List String → ℤ → List String × ℤ
  | [], selected, total => (selected, total)
  | c :: cs, selected, total =>
      let selected := selected ++ [c.coinObjectId]
      let total := total + c.balance
      if total ≥ amount then (selected, total) else selectLoop amount cs selected total

/-- Specification vocabulary: the sum of the balances of a list of coin
objects (used to state which prefix of the enumeration a selection is). -/
def balSum (coins : List CoinObj) : ℤ := (coins.map fun c => c.balance).sum

/-- `_split_coin` from `client.py` (lines 198-254), up to the data that
determines the merge/split sub-operations: an empty enumeration fails
with the "no coins available" error, a total below the requested amount
fails with the insufficient-balance error, and otherwise the selected
object ids are merged and the exact amount is split off the first. -/
def split_coin (wallet : String → List CoinObj) (coin_type : String)
    (amount : ℤ) : Except DexError (List String × ℤ) :=
  let coins := wallet coin_type
  if coins = [] then .error .noCoins
  else
    let sel := selectLoop amount coins [] 0
    if sel.1 = [] ∨ sel.2 < amount then .error .insufficientBalance
    else .ok (sel.1, amount)

/-- `add_liquidity` from `client.py` (lines 124-196), continuation after
the canonical sort and amount swap: validate the amounts and the
slippage, fetch the pool — and then line 139 evaluates
`pool.bal_x.value`, but the `Pool` of `types.py` stores its balances as
plain ints (its own test asserts `pool.bal_x == 1000`), so the attribute
access raises `AttributeError`.  The optimal-amount computation, the
slippage minimums, the coin splits and the `router::add_liquidity`
`move_call` (lines 136-189) are unreachable once a pool is found. -/
def add_liquidity_sorted (wallet : String → List CoinObj)
    (getPool : String → Option Pool) (pool_id coin_x_type coin_y_type : String)
    (coin_x_amount coin_y_amount : ℤ) (slippage : ℚ) :
    Except DexError CallDescriptor :=
  if coin_x_amount ≤ 0 ∨ coin_y_amount ≤ 0 then .error .amountNotPositive
  else if slippage ≥ 1 ∨ slippage < 0 then .error .invalidSlippage
  else match getPool pool_id with
    | none => .error .poolNotFound
    | some _pool => .error .attributeError

/-- `add_liquidity` from `client.py` (lines 114-178) up to the built call
descriptor: sort the pair canonically (lines 116-119), swap the amounts
with the types when the sort swapped the order (lines 121-122), then
continue with `add_liquidity_sorted`. -/
def add_liquidity_call (wallet : String → List CoinObj)
    (getPool : String → Option Pool) (pool_id coin_x_type coin_y_type : String)
    (coin_x_amount coin_y_amount : ℤ) (slippage : ℚ) :
    Except DexError CallDescriptor :=
  let st := sort_type coin_x_type coin_y_type
  let amounts := if st.1 ≠ coin_x_type then (coin_y_amount, coin_x_amount)
                 else (coin_x_amount, coin_y_amount)
  add_liquidity_sorted wallet getPool pool_id st.1 st.2 amounts.1 amounts.2 slippage

/-- `remove_liquidity` from `client.py` (lines 284-320) up to the built
call descriptor. -/
def remove_liquidity_call (wallet : String → List CoinObj)
    (getPool : String → Option Pool) (pool_id coin_x_type coin_y_type : String)
    (lp_amount : ℤ) : Except DexError CallDescriptor := do
  if lp_amount ≤ 0 then throw .amountNotPositive
  let st := sort_and_get_lp_type package_id coin_x_type coin_y_type
  let some _pool := getPool pool_id | throw .poolNotFound
  let split_lp_coin ← split_coin wallet st.2.2 lp_amount
  return { target := package_id ++ "::router::remove_liquidity",
           arguments := [.obj version_id, .obj global_id, .obj pool_id,
                         .coin split_lp_coin],
           typeArguments := [st.1, st.2.1] }

/-- `swap_exact_in` from `client.py` (lines 372-446): validate, fetch
the pool, sort the pair, split the input coin — and then lines 398-409
read `pool.fee_rate.value` and the pool balances through `.value`, which
raises `AttributeError` on the plain-int fields of `Pool` (types.py), so
the pricing, the slippage bound and the `move_call` (lines 396-427) are
unreachable. -/
def swap_exact_in_call (wallet : String → List CoinObj)
    (getPool : String → Option Pool) (pool_id coin_in_type coin_out_type : String)
    (amount_in : ℤ) (slippage : ℚ) : Except DexError CallDescriptor :=
  if amount_in ≤ 0 then .error .amountNotPositive
  else if slippage ≥ 1 ∨ slippage < 0 then .error .invalidSlippage
  else match getPool pool_id with
    | none => .error .poolNotFound
    | some _pool =>
      let _st := sort_type coin_in_type coin_out_type
      (split_coin wallet coin_in_type amount_in).bind
        fun _split_coin_in => .error .attributeError

/-- `swap_exact_out` from `client.py` (lines 479-549): validate, fetch
the pool, sort the pair — and then both branches of the direction choice
(lines 491-498) read `pool.bal_x.value` / `pool.bal_y.value`, which
raises `AttributeError` on the plain-int fields of `Pool` (types.py), so
the pricing, the split and the `move_call` (lines 500-530) are
unreachable. -/
def swap_exact_out_call (wallet : String → List CoinObj)
    (getPool : String → Option Pool) (pool_id coin_in_type coin_out_type : String)
    (amount_out : ℤ) (slippage : ℚ) : Except DexError CallDescriptor :=
  if amount_out ≤ 0 then .error .amountNotPositive
  else if slippage ≥ 1 ∨ slippage < 0 then .error .invalidSlippage
  else match getPool pool_id with
    | none => .error .poolNotFound
    | some _pool =>
      let _st := sort_type coin_in_type coin_out_type
      .error .attributeError

/-- The message of each modelled exception, as produced by `str(e)` on the
corresponding Python exception. -/
def errString : DexError → String
  | .invalidFeeRate => "Invalid fee rate"
  | .zeroAmount => "Zero amount"
  | .emptyReserves => "Reserves empty"
  | .u64Overflow => "U64 overflow"
  | .divisionByZero => "division by zero"
  | .overLimit => "Over limit"
  | .amountNotPositive => "Amount must be greater than 0"
  | .invalidSlippage => "Slippage must be less than 100% and greater than 0%"
  | .poolNotFound => "Failed to get pool info"
  | .noCoins => "no coins available"
  | .insufficientBalance => "balance is not enough"
  | .attributeError => "AttributeError: int object has no attribute value"
  | .submitFailed reason => reason

/-- The `try ... except Exception` wrapper shared by the four public
trading operations (`client.py` lines 114/191, 284/334, 372/441,
479/544): a digest becomes a success dictionary, any exception becomes
the failure dictionary with empty `tx_id`, `status = False` and the
stringified error. -/
def runResult (r : Except DexError String) : ResultDict :=
  match r with
  | .ok digest => { txId := digest, status := true, error := none }
  | .error e => { txId := "", status := false, error := some (errString e) }

/-- The public `add_liquidity`: build the descriptor, submit it, catch
every exception. -/
def add_liquidity (submit : CallDescriptor → Except DexError String)
    (wallet : String → List CoinObj) (getPool : String → Option Pool)
    (pool_id coin_x_type coin_y_type : String) (coin_x_amount coin_y_amount : ℤ)
    (slippage : ℚ) : ResultDict :=
  runResult ((add_liquidity_call wallet getPool pool_id coin_x_type coin_y_type
    coin_x_amount coin_y_amount slippage).bind submit)

/-- The public `remove_liquidity`: build the descriptor, submit it, catch
every exception. -/
def remove_liquidity (submit : CallDescriptor → Except DexError String)
    (wallet : String → List CoinObj) (getPool : String → Option Pool)
    (pool_id coin_x_type coin_y_type : String) (lp_amount : ℤ) : ResultDict :=
  runResult ((remove_liquidity_call wallet getPool pool_id coin_x_type
    coin_y_type lp_amount).bind submit)

/-- The public `swap_exact_in`: build the descriptor, submit it, catch
every exception. -/
def swap_exact_in (submit : CallDescriptor → Except DexError String)
    (wallet : String → List CoinObj) (getPool : String → Option Pool)
    (pool_id coin_in_type coin_out_type : String) (amount_in : ℤ)
    (slippage : ℚ) : ResultDict :=
  runResult ((swap_exact_in_call wallet getPool pool_id coin_in_type
    coin_out_type amount_in slippage).bind submit)

/-- The public `swap_exact_out`: build the descriptor, submit it, catch
every exception. -/
def swap_exact_out (submit : CallDescriptor → Except DexError String)
    (wallet : String → List CoinObj) (getPool : String → Option Pool)
    (pool_id coin_in_type coin_out_type : String) (amount_out : ℤ)
    (slippage : ℚ) : ResultDict :=
  runResult ((swap_exact_out_call wallet getPool pool_id coin_in_type
    coin_out_type amount_out slippage).bind submit)

/-- The result shape the catch-all wrapper guarantees: either a success
dictionary, or the failure dictionary with empty transaction id,
`status = False` and an error string present. -/
def Caught (r : ResultDict) : Prop :=
  r.status = true ∨ (r.txId = "" ∧ r.status = false ∧ r.error.isSome = true)

/-- A concrete wallet for witnesses: two owned coins per token type. -/
def demoWallet : String → List CoinObj :=
  fun _ => [⟨"0xcoin1", 500000⟩, ⟨"0xcoin2", 700000⟩]

/-- A concrete pool-state reader for witnesses. -/
def demoGetPool : String → Option Pool :=
  fun _ => some ⟨1000000, 2000000, 10, 20, 100000, 30, 1⟩

/-! ## Helper lemmas: the rounding of the default Decimal context -/

/-- `digitsFuel` computes the decimal digit count when given enough fuel:
`10^(d-1) ≤ n < 10^d` for a non-zero `n` of `d` digits. -/
lemma digitsFuel_spec :
    ∀ fuel n, n ≤ fuel → n ≠ 0 →
      10 ^ (digitsFuel fuel n - 1) ≤ n ∧ n < 10 ^ digitsFuel fuel n := by
  intro fuel
  induction fuel with
  | zero => intro n hn h0; omega
  | succ fuel ih =>
    intro n hn h0
    obtain ⟨m, rfl⟩ : ∃ m, n = m + 1 := ⟨n - 1, by omega⟩
    have hstep : digitsFuel (fuel + 1) (m + 1) =
        digitsFuel fuel ((m + 1) / 10) + 1 := rfl
    rw [hstep]
    by_cases hq : (m + 1) / 10 = 0
    · have h10 : m + 1 < 10 := by omega
      have h00 : digitsFuel fuel 0 = 0 := by cases fuel <;> rfl
      rw [hq, h00]
      norm_num
      omega
    · obtain ⟨h1, h2⟩ := ih ((m + 1) / 10) (by omega) hq
      constructor
      · have hd1 : 1 ≤ digitsFuel fuel ((m + 1) / 10) := by
          rcases Nat.eq_zero_or_pos (digitsFuel fuel ((m + 1) / 10)) with hz | hp
          · rw [hz] at h2
            norm_num at h2
            omega
          · exact hp
        have ha : 10 ^ (digitsFuel fuel ((m + 1) / 10) - 1) * 10 ≤
            ((m + 1) / 10) * 10 := Nat.mul_le_mul h1 le_rfl
        have hb : ((m + 1) / 10) * 10 ≤ m + 1 := Nat.div_mul_le_self _ _
        have hpow : 10 ^ (digitsFuel fuel ((m + 1) / 10) - 1) * 10 =
            10 ^ digitsFuel fuel ((m + 1) / 10) := by
          rw [← pow_succ]
          congr 1
          omega
        simp only [Nat.add_sub_cancel]
        omega
      · have hc : m + 1 < ((m + 1) / 10) * 10 + 10 := by omega
        have h2a : (m + 1) / 10 + 1 ≤ 10 ^ digitsFuel fuel ((m + 1) / 10) := h2
        have hd : ((m + 1) / 10) * 10 + 10 ≤
            10 ^ digitsFuel fuel ((m + 1) / 10) * 10 := by
          calc ((m + 1) / 10) * 10 + 10 = ((m + 1) / 10 + 1) * 10 := by ring
            _ ≤ 10 ^ digitsFuel fuel ((m + 1) / 10) * 10 := Nat.mul_le_mul h2a le_rfl
        have hpow : 10 ^ digitsFuel fuel ((m + 1) / 10) * 10 =
            10 ^ (digitsFuel fuel ((m + 1) / 10) + 1) := (pow_succ _ _).symm
        omega

/-- Digit-count bounds for `nDigits`. -/
lemma nDigits_spec (n : ℕ) (hn : n ≠ 0) :
    10 ^ (nDigits n - 1) ≤ n ∧ n < 10 ^ nDigits n :=
  digitsFuel_spec n n le_rfl hn

/-- A non-zero number has at least one digit. -/
lemma nDigits_pos (n : ℕ) (hn : n ≠ 0) : 1 ≤ nDigits n := by
  rcases Nat.eq_zero_or_pos (nDigits n) with hz | hp
  · have h2 := (nDigits_spec n hn).2
    rw [hz] at h2
    norm_num at h2
    omega
  · exact hp

/-- Half-even rounding never falls below the floor. -/
lemma roundHalfEven_ge (a b : ℕ) : a / b ≤ roundHalfEven a b := by
  unfold roundHalfEven
  split_ifs <;> omega

/-- Half-even rounding overshoots the exact quotient by at most half an
ulp: `2 * b * round(a / b) ≤ 2 * a + b`. -/
lemma roundHalfEven_le (a b : ℕ) (hb : 0 < b) :
    2 * b * roundHalfEven a b ≤ 2 * a + b := by
  have h1 : b * (a / b) + a % b = a := Nat.div_add_mod a b
  have h2 : a % b < b := Nat.mod_lt a hb
  unfold roundHalfEven
  split_ifs with g1 g2 g3
  · rw [show 2 * b * (a / b) = 2 * (b * (a / b)) from by ring]
    obtain ⟨X, hX⟩ : ∃ X, X = b * (a / b) := ⟨_, rfl⟩
    rw [← hX] at h1 ⊢
    obtain ⟨r, hr⟩ : ∃ r, r = a % b := ⟨_, rfl⟩
    rw [← hr] at h1 h2 g1
    clear hX hr
    omega
  · rw [show 2 * b * (a / b + 1) = 2 * (b * (a / b)) + 2 * b from by ring]
    obtain ⟨X, hX⟩ : ∃ X, X = b * (a / b) := ⟨_, rfl⟩
    rw [← hX] at h1 ⊢
    obtain ⟨r, hr⟩ : ∃ r, r = a % b := ⟨_, rfl⟩
    rw [← hr] at h1 h2 g1 g2
    clear hX hr
    omega
  · rw [show 2 * b * (a / b) = 2 * (b * (a / b)) from by ring]
    obtain ⟨X, hX⟩ : ∃ X, X = b * (a / b) := ⟨_, rfl⟩
    rw [← hX] at h1 ⊢
    obtain ⟨r, hr⟩ : ∃ r, r = a % b := ⟨_, rfl⟩
    rw [← hr] at h1 h2 g1 g2
    clear hX hr
    omega
  · rw [show 2 * b * (a / b + 1) = 2 * (b * (a / b)) + 2 * b from by ring]
    obtain ⟨X, hX⟩ : ∃ X, X = b * (a / b) := ⟨_, rfl⟩
    rw [← hX] at h1 ⊢
    obtain ⟨r, hr⟩ : ∃ r, r = a % b := ⟨_, rfl⟩
    rw [← hr] at h1 h2 g1 g2
    clear hX hr
    omega

/-- Below `10^28` the context rounding is the identity. -/
lemma round28_eq_self {n : ℕ} (h : n < 10 ^ 28) : round28 n = n := by
  unfold round28
  rw [if_pos h]

/-- The context rounding overshoots by at most half a unit in the 28th
significant digit: `round28 n * 2 * 10^27 ≤ n * (2 * 10^27 + 1)`. -/
lemma round28_le (n : ℕ) : round28 n * (2 * 10 ^ 27) ≤ n * (2 * 10 ^ 27 + 1) := by
  simp only [round28]
  split_ifs with h
  · exact Nat.mul_le_mul le_rfl (by omega)
  · push_neg at h
    have hn0 : n ≠ 0 := by
      intro h0
      rw [h0] at h
      exact absurd h (by norm_num)
    obtain ⟨hlo, hhi⟩ := nDigits_spec n hn0
    have hd : 29 ≤ nDigits n := by
      by_contra hc
      push_neg at hc
      have hsm : n < 10 ^ 28 :=
        lt_of_lt_of_le hhi (Nat.pow_le_pow_right (by norm_num) (by omega))
      omega
    have hple : 10 ^ (nDigits n - 28) * 10 ^ 27 ≤ n := by
      have he : 10 ^ (nDigits n - 28) * 10 ^ 27 = 10 ^ (nDigits n - 1) := by
        rw [← pow_add]
        congr 1
        omega
      rw [he]
      exact hlo
    have hrhe := roundHalfEven_le n (10 ^ (nDigits n - 28))
      (pow_pos (by norm_num) _)
    calc roundHalfEven n (10 ^ (nDigits n - 28)) * 10 ^ (nDigits n - 28) *
          (2 * 10 ^ 27)
        = 2 * 10 ^ (nDigits n - 28) *
            roundHalfEven n (10 ^ (nDigits n - 28)) * 10 ^ 27 := by ring
      _ ≤ (2 * n + 10 ^ (nDigits n - 28)) * 10 ^ 27 := Nat.mul_le_mul hrhe le_rfl
      _ = 2 * n * 10 ^ 27 + 10 ^ (nDigits n - 28) * 10 ^ 27 := by ring
      _ ≤ 2 * n * 10 ^ 27 + n := Nat.add_le_add_left hple _
      _ = n * (2 * 10 ^ 27 + 1) := by ring

/-- Signed context rounding is the identity below `10^28`. -/
lemma round28Z_eq_self {z : ℤ} (h : z.natAbs < 10 ^ 28) : round28Z z = z := by
  unfold round28Z
  rw [round28_eq_self h, Int.sign_mul_natAbs]

/-- Signed context rounding of zero. -/
lemma round28Z_zero : round28Z 0 = 0 := by
  simp [round28Z]

/-- When the exact quotient is below `10^28`, the adjusted exponent is at
most `27`. -/
lemma decExp_le_27 (a b : ℕ) (ha : a ≠ 0) (hb : b ≠ 0) (h : a < b * 10 ^ 28) :
    decExp a b ≤ 27 := by
  obtain ⟨haLo, haHi⟩ := nDigits_spec a ha
  obtain ⟨hbLo, hbHi⟩ := nDigits_spec b hb
  have ha1 := nDigits_pos a ha
  have hb1 := nDigits_pos b hb
  simp only [decExp]
  split_ifs with h1 h2 h3
  · by_contra hc
    push_neg at hc
    have h28 : 28 ≤ ((nDigits a : ℤ) - (nDigits b : ℤ)).toNat := by omega
    have hmono : (10 : ℕ) ^ 28 ≤ 10 ^ ((nDigits a : ℤ) - (nDigits b : ℤ)).toNat :=
      Nat.pow_le_pow_right (by norm_num) h28
    have hbig : b * 10 ^ 28 ≤ b * 10 ^ ((nDigits a : ℤ) - (nDigits b : ℤ)).toNat :=
      Nat.mul_le_mul le_rfl hmono
    linarith [h2, h, hbig]
  · by_contra hc
    push_neg at hc
    have hd : nDigits b + 29 ≤ nDigits a := by omega
    have hchain : b * 10 ^ 28 < a := by
      calc b * 10 ^ 28 < 10 ^ nDigits b * 10 ^ 28 :=
            mul_lt_mul_of_pos_right hbHi (by positivity)
        _ = 10 ^ (nDigits b + 28) := by rw [← pow_add]
        _ ≤ 10 ^ (nDigits a - 1) := Nat.pow_le_pow_right (by norm_num) (by omega)
        _ ≤ a := haLo
    linarith
  · omega
  · omega

/-- A non-negative adjusted exponent is witnessed below: `b * 10^e ≤ a`. -/
lemma decExp_pow_le (a b : ℕ) (ha : a ≠ 0) (hb : b ≠ 0) (he : 0 ≤ decExp a b) :
    b * 10 ^ (decExp a b).toNat ≤ a := by
  obtain ⟨haLo, haHi⟩ := nDigits_spec a ha
  obtain ⟨hbLo, hbHi⟩ := nDigits_spec b hb
  have ha1 := nDigits_pos a ha
  have hb1 := nDigits_pos b hb
  simp only [decExp] at he ⊢
  split_ifs at he ⊢ with h1 h2 h3
  · exact h2
  · have hd : nDigits b + 1 ≤ nDigits a := by omega
    have hexp : ((nDigits a : ℤ) - (nDigits b : ℤ) - 1).toNat =
        nDigits a - 1 - nDigits b := by omega
    rw [hexp]
    calc b * 10 ^ (nDigits a - 1 - nDigits b)
        ≤ 10 ^ nDigits b * 10 ^ (nDigits a - 1 - nDigits b) :=
          Nat.mul_le_mul hbHi.le le_rfl
      _ = 10 ^ (nDigits a - 1) := by
          rw [← pow_add]
          congr 1
          omega
      _ ≤ a := haLo
  · omega
  · omega

/-- A negative adjusted exponent is witnessed above: `b ≤ a * 10^(-e)`. -/
lemma decExp_neg_le (a b : ℕ) (ha : a ≠ 0) (hb : b ≠ 0) (he : decExp a b < 0) :
    b ≤ a * 10 ^ (-decExp a b).toNat := by
  obtain ⟨haLo, haHi⟩ := nDigits_spec a ha
  obtain ⟨hbLo, hbHi⟩ := nDigits_spec b hb
  have ha1 := nDigits_pos a ha
  have hb1 := nDigits_pos b hb
  simp only [decExp] at he ⊢
  split_ifs at he ⊢ with h1 h2 h3
  · omega
  · have hd : nDigits a = nDigits b := by omega
    have hexp : (-((nDigits a : ℤ) - (nDigits b : ℤ) - 1)).toNat = 1 := by omega
    rw [hexp]
    refine le_of_lt ?_
    calc b < 10 ^ nDigits b := hbHi
      _ = 10 ^ (nDigits a - 1) * 10 ^ 1 := by
          rw [← pow_add]
          congr 1
          omega
      _ ≤ a * 10 ^ 1 := Nat.mul_le_mul haLo le_rfl
  · exact h3
  · have hd : nDigits a + 1 ≤ nDigits b := by omega
    have hexp : (-((nDigits a : ℤ) - (nDigits b : ℤ) - 1)).toNat =
        nDigits b - nDigits a + 1 := by omega
    rw [hexp]
    refine le_of_lt ?_
    calc b < 10 ^ nDigits b := hbHi
      _ = 10 ^ (nDigits a - 1) * 10 ^ (nDigits b - nDigits a + 1) := by
          rw [← pow_add]
          congr 1
          omega
      _ ≤ a * 10 ^ (nDigits b - nDigits a + 1) := Nat.mul_le_mul haLo le_rfl

/-- The truncated rounded quotient never falls below the exact floor, as
long as the quotient stays below `10^28` (where rounding acts at or
below the unit digit). -/
lemma divDecMag_ge (a b : ℕ) (hb : 0 < b) (hab : a < b * 10 ^ 28) :
    a / b ≤ divDecMag a b := by
  rcases Nat.eq_zero_or_pos a with ha0 | ha0
  · subst ha0
    simp [divDecMag]
  have he : decExp a b ≤ 27 := decExp_le_27 a b (by omega) (by omega) hab
  simp only [divDecMag]
  rw [if_neg (by omega), if_pos he]
  have hps : (0 : ℕ) < 10 ^ (27 - decExp a b).toNat := pow_pos (by norm_num) _
  calc a / b = a * 10 ^ (27 - decExp a b).toNat /
        (b * 10 ^ (27 - decExp a b).toNat) :=
        (Nat.mul_div_mul_right a b hps).symm
    _ = a * 10 ^ (27 - decExp a b).toNat / b / 10 ^ (27 - decExp a b).toNat :=
        (Nat.div_div_eq_div_mul _ _ _).symm
    _ ≤ roundHalfEven (a * 10 ^ (27 - decExp a b).toNat) b /
          10 ^ (27 - decExp a b).toNat :=
        Nat.div_le_div_right (roundHalfEven_ge _ _)

/-- Master upper bound on the truncated rounded quotient: if
`a * (2 * 10^27 + 1) < 2 * 10^27 * (b * T)` then `int(a / b) < T`.  The
slack absorbs the half-ulp overshoot of the 28-digit rounding at every
possible adjusted exponent. -/
lemma divDecMag_lt_of (a b T : ℕ) (hb : 0 < b)
    (h : a * (2 * 10 ^ 27 + 1) < 2 * 10 ^ 27 * (b * T)) :
    divDecMag a b < T := by
  have hT : 0 < T := by
    rcases Nat.eq_zero_or_pos T with h0 | h0
    · rw [h0] at h
      norm_num at h
    · exact h0
  rcases Nat.eq_zero_or_pos a with ha0 | ha0
  · subst ha0
    simpa [divDecMag] using hT
  simp only [divDecMag]
  rw [if_neg (by omega)]
  by_cases he : decExp a b ≤ 27
  · rw [if_pos he]
    set s := (27 - decExp a b).toNat with hs
    have hps : (0 : ℕ) < 10 ^ s := pow_pos (by norm_num) _
    rw [Nat.div_lt_iff_lt_mul hps]
    have hrhe := roundHalfEven_le (a * 10 ^ s) b hb
    have hgoal2 : 2 * (a * 10 ^ s) + b < 2 * b * (T * 10 ^ s) := by
      by_cases he0 : 0 ≤ decExp a b
      · have hcross : b * 10 ^ (decExp a b).toNat ≤ a :=
          decExp_pow_le a b (by omega) (by omega) he0
        have hse : s + (decExp a b).toNat = 27 := by omega
        have hstep : (2 * (a * 10 ^ s) + b) * 10 ^ (decExp a b).toNat <
            2 * b * (T * 10 ^ s) * 10 ^ (decExp a b).toNat := by
          calc (2 * (a * 10 ^ s) + b) * 10 ^ (decExp a b).toNat
              = 2 * a * (10 ^ s * 10 ^ (decExp a b).toNat) +
                  b * 10 ^ (decExp a b).toNat := by ring
            _ = 2 * a * 10 ^ 27 + b * 10 ^ (decExp a b).toNat := by
                rw [← pow_add, hse]
            _ ≤ 2 * a * 10 ^ 27 + a := Nat.add_le_add_left hcross _
            _ = a * (2 * 10 ^ 27 + 1) := by ring
            _ < 2 * 10 ^ 27 * (b * T) := h
            _ = 2 * b * (T * 10 ^ s) * 10 ^ (decExp a b).toNat := by
                rw [show 2 * b * (T * 10 ^ s) * 10 ^ (decExp a b).toNat =
                  2 * b * T * (10 ^ s * 10 ^ (decExp a b).toNat) from by ring,
                  ← pow_add, hse]
                ring
        exact Nat.lt_of_mul_lt_mul_right hstep
      · push_neg at he0
        have hcross : b ≤ a * 10 ^ (-decExp a b).toNat :=
          decExp_neg_le a b (by omega) (by omega) he0
        have hsu : s = 27 + (-decExp a b).toNat := by omega
        calc 2 * (a * 10 ^ s) + b
            ≤ 2 * (a * 10 ^ s) + a * 10 ^ (-decExp a b).toNat :=
              Nat.add_le_add_left hcross _
          _ = a * (2 * 10 ^ 27 + 1) * 10 ^ (-decExp a b).toNat := by
              rw [hsu, pow_add]
              ring
          _ < 2 * 10 ^ 27 * (b * T) * 10 ^ (-decExp a b).toNat :=
              mul_lt_mul_of_pos_right h (by positivity)
          _ = 2 * b * (T * 10 ^ s) := by
              rw [hsu, pow_add]
              ring
    have hfin : 2 * b * roundHalfEven (a * 10 ^ s) b < 2 * b * (T * 10 ^ s) :=
      lt_of_le_of_lt hrhe hgoal2
    exact Nat.lt_of_mul_lt_mul_left hfin
  · rw [if_neg he]
    push_neg at he
    set t := (decExp a b - 27).toNat with ht
    have he0 : 0 ≤ decExp a b := by omega
    have hcross : b * 10 ^ (decExp a b).toNat ≤ a :=
      decExp_pow_le a b (by omega) (by omega) he0
    have het : (decExp a b).toNat = t + 27 := by omega
    have hbt : 0 < b * 10 ^ t := by positivity
    have hrhe := roundHalfEven_le a (b * 10 ^ t) hbt
    have hg : 2 * a + b * 10 ^ t < 2 * (b * T) := by
      have hstep : (2 * a + b * 10 ^ t) * 10 ^ 27 < 2 * (b * T) * 10 ^ 27 := by
        calc (2 * a + b * 10 ^ t) * 10 ^ 27
            = 2 * a * 10 ^ 27 + b * (10 ^ t * 10 ^ 27) := by ring
          _ = 2 * a * 10 ^ 27 + b * 10 ^ (decExp a b).toNat := by
              rw [← pow_add, het]
          _ ≤ 2 * a * 10 ^ 27 + a := Nat.add_le_add_left hcross _
          _ = a * (2 * 10 ^ 27 + 1) := by ring
          _ < 2 * 10 ^ 27 * (b * T) := h
          _ = 2 * (b * T) * 10 ^ 27 := by ring
      exact Nat.lt_of_mul_lt_mul_right hstep
    have h2 : 2 * b * (roundHalfEven a (b * 10 ^ t) * 10 ^ t) < 2 * b * T := by
      calc 2 * b * (roundHalfEven a (b * 10 ^ t) * 10 ^ t)
          = 2 * (b * 10 ^ t) * roundHalfEven a (b * 10 ^ t) := by ring
        _ ≤ 2 * a + b * 10 ^ t := hrhe
        _ < 2 * (b * T) := hg
        _ = 2 * b * T := by ring
    exact Nat.lt_of_mul_lt_mul_left h2

/-- The signed truncated division agrees with the magnitude version on
casts of naturals (`b ≠ 0`). -/
lemma divDecInt_natCast (a b : ℕ) (hb : b ≠ 0) :
    divDecInt (a : ℤ) (b : ℤ) = (divDecMag a b : ℤ) := by
  rcases Nat.eq_zero_or_pos a with ha | ha
  · subst ha
    simp [divDecInt, divDecMag]
  have h1 : ((a : ℤ)).sign = 1 := Int.sign_eq_one_of_pos (by exact_mod_cast ha)
  have h2 : ((b : ℤ)).sign = 1 :=
    Int.sign_eq_one_of_pos (by exact_mod_cast Nat.pos_of_ne_zero hb)
  simp [divDecInt, h1, h2]

/-- Any natural is below the successor of its quotient times the divisor. -/
lemma lt_div_succ_mul (a b : ℕ) (hb : 0 < b) : a < (a / b + 1) * b := by
  have h1 := Nat.div_add_mod a b
  have h2 := Nat.mod_lt a hb
  calc a = b * (a / b) + a % b := h1.symm
    _ < b * (a / b) + b := by omega
    _ = (a / b + 1) * b := by ring

/-- Faithful evaluation of the general branch of `get_amount_out` when
the numerator product and the denominator stay below `10^28` (so that
only the final division rounds). -/
lemma get_amount_out_eval (fee aIn rIn rOut : ℕ) (h0 : fee ≠ 0)
    (h1 : fee ≤ 10000) (h2 : aIn ≠ 0) (h3 : rIn ≠ 0) (h4 : rOut ≠ 0)
    (hc : aIn * (10000 - fee) < 10 ^ 28)
    (hD : rIn * 10000 + aIn * (10000 - fee) < 10 ^ 28)
    (hv : divDecMag (round28 (aIn * (10000 - fee) * rOut))
        (rIn * 10000 + aIn * (10000 - fee)) ≤ U64_MAX) :
    get_amount_out fee aIn rIn rOut =
      .ok (divDecMag (round28 (aIn * (10000 - fee) * rOut))
        (rIn * 10000 + aIn * (10000 - fee))) := by
  have hrIn4 : rIn * 10000 < 10 ^ 28 := lt_of_le_of_lt (Nat.le_add_right _ _) hD
  have hfm : (10000 : ℕ) - fee < 10 ^ 28 :=
    lt_of_le_of_lt (Nat.sub_le _ _) (by norm_num)
  simp only [get_amount_out, FEE_SCALE, MAX_FEE_RATE]
  rw [if_neg h0, if_neg (by omega), if_neg h2, if_neg (by simp [h3, h4])]
  rw [round28_eq_self hfm, round28_eq_self hc, round28_eq_self hrIn4,
    round28_eq_self hD]
  rw [if_neg (by omega)]

/-- Faithful evaluation of the zero-fee branch of `get_amount_out` when
both the product and the sum stay below `10^28`. -/
lemma get_amount_out_zero_eval (aIn rIn rOut : ℕ) (hden : 0 < rIn + aIn)
    (hN : rOut * aIn < 10 ^ 28) (hD : rIn + aIn < 10 ^ 28) :
    get_amount_out 0 aIn rIn rOut = .ok (divDecMag (rOut * aIn) (rIn + aIn)) := by
  simp only [get_amount_out, if_true]
  rw [if_neg (by omega), round28_eq_self hN, round28_eq_self hD]

/-! ## Claims about the pricing engine -/

/-- C1 (refuting evaluation): inside the claimed domain — fee rate in
`(0, 10000]`, positive input amount and reserves, all within the
unsigned 64-bit range — the default `Decimal` context rounds the
39-digit numerator `netIn * reserveOut` to 28 significant digits before
dividing.  At `feeRate = 9999`, `amountIn = 18446744073709551017`,
`reserveIn = 1`, `reserveOut = 12261550785794745208` that rounding
crosses a divisibility boundary: the code returns
`12261550785794738561`, one more than the exact
`floor(netIn * reserveOut / (reserveIn * 10000 + netIn)) =
12261550785794738560` the claim specifies. -/
theorem amount_out_decimal_rounding_deviates :
    get_amount_out 9999 18446744073709551017 1 12261550785794745208 =
        .ok 12261550785794738561 ∧
      18446744073709551017 * (10000 - 9999) * 12261550785794745208 /
          (1 * 10000 + 18446744073709551017 * (10000 - 9999)) =
        12261550785794738560 ∧
      18446744073709551017 ≤ U64_MAX ∧ 12261550785794745208 ≤ U64_MAX :=
  ⟨by decide, by decide, by decide, by decide⟩

/-- C2 (refuting evaluation): `get_amount_in` has no insufficient-liquidity
guard.  At `fee_rate = 30`, `amount_out = 100`, `reserve_in = 100`,
`reserve_out = 50` — an output strictly above the available reserve — the
code performs the subtraction, divides by the negative denominator
`(50 - 100) * 9970` and returns the meaningless value `-199` with no
error at all, instead of failing before the subtraction. -/
theorem amount_in_excess_output_no_error :
    get_amount_in 30 100 100 50 = .ok (-199) := by decide

/-- C3 (refuting evaluation): `calc_optimal_coin_values` on
`xDesired = 1, yDesired = 2, reserveX = 2, reserveY = 3` returns the pair
`(1, 3/2)`: `mul_div` never floors (the 28-digit context rounding keeps
the short quotient `3/2` exactly), so the second returned amount is the
non-integer `3/2` where the claim requires `floor(1 * 3 / 2) = 1`. -/
theorem calc_optimal_returns_fraction :
    calc_optimal_coin_values 1 2 2 3 = .ok (1, 3/2) := by
  have hdq3 : divDecQ 3 1 = 3 := by
    have he : decExp 3 1 = 0 := by decide
    have hr : roundHalfEven (3 * 10 ^ 27) 1 = 3 * 10 ^ 27 := by decide
    simp only [divDecQ, he]
    rw [if_neg (show ¬ (3 : ℕ) = 0 from by norm_num),
      if_pos (show (0 : ℤ) ≤ 27 from by norm_num),
      show ((27 : ℤ) - 0).toNat = 27 from by decide, hr]
    norm_num
  have hdq32 : divDecQ 3 2 = 3 / 2 := by
    have he : decExp 3 2 = 0 := by decide
    have hr : roundHalfEven (3 * 10 ^ 27) 2 = 15 * 10 ^ 26 := by decide
    simp only [divDecQ, he]
    rw [if_neg (show ¬ (3 : ℕ) = 0 from by norm_num),
      if_pos (show (0 : ℤ) ≤ 27 from by norm_num),
      show ((27 : ℤ) - 0).toNat = 27 from by decide, hr]
    norm_num
  have h3 : round28Q ((1 : ℚ) * 3) = 3 := by
    rw [show ((1 : ℚ) * 3) = 3 from by norm_num]
    have hnum : (3 : ℚ).num = 3 := rfl
    have hden : (3 : ℚ).den = 1 := rfl
    have hsign : Int.sign 3 = 1 := by decide
    simp only [round28Q, hnum, hden, hsign]
    rw [show ((3 : ℤ)).natAbs = 3 from rfl, hdq3]
    norm_num
  have h32 : round28Q ((3 : ℚ) / 2) = 3 / 2 := by
    have hnum : ((3 : ℚ) / 2).num = 3 := by norm_num
    have hden : ((3 : ℚ) / 2).den = 2 := by norm_num
    have hsign : Int.sign 3 = 1 := by decide
    simp only [round28Q, hnum, hden, hsign]
    rw [show ((3 : ℤ)).natAbs = 3 from rfl, hdq32]
    norm_num
  have hmd : mul_div 1 3 2 = .ok (3 / 2) := by
    simp only [mul_div]
    rw [if_neg (by norm_num), h3, h32]
  simp only [calc_optimal_coin_values]
  rw [if_neg (by norm_num)]
  simp only [bind, Except.bind, hmd]
  rw [if_pos (by norm_num : (3 / 2 : ℚ) ≤ 2)]
  rfl

/-- C5 (refuting evaluation): the zero-fee branch also rounds through
the default `Decimal` context before `int()` truncates.  At
`amountIn = 18446744073709551031`, `reserveIn = 3`,
`reserveOut = 12297829382473034023` (all within the unsigned 64-bit
range) the correctly rounded 28-digit quotient lands above an integer
that the exact quotient is below: the code returns
`12297829382473034021` where the claimed
`floor(reserveOut * amountIn / (reserveIn + amountIn))` is
`12297829382473034020`. -/
theorem amount_out_zero_fee_rounding_deviates :
    get_amount_out 0 18446744073709551031 3 12297829382473034023 =
        .ok 12297829382473034021 ∧
      12297829382473034023 * 18446744073709551031 /
          (3 + 18446744073709551031) = 12297829382473034020 ∧
      18446744073709551031 ≤ U64_MAX ∧ 12297829382473034023 ≤ U64_MAX :=
  ⟨by decide, by decide, by decide, by decide⟩

/-- C9: the fee-rate validation of `get_amount_in` rejects only
`feeRate > 10000`, so at `feeRate = 10000` every otherwise valid input
(`0 < amountOut < reserveOut`, `0 < reserveIn`) reaches the division with
denominator `(reserveOut - amountOut) * (10000 - 10000) = 0`: an
unguarded division by zero instead of any error of the specified
taxonomy. -/
theorem amount_in_max_fee_divides_by_zero (out rIn rOut : ℕ)
    (hout : 0 < out) (hlt : out < rOut) (hrIn : 0 < rIn) :
    get_amount_in 10000 out rIn rOut = .error .divisionByZero := by
  simp only [get_amount_in, MAX_FEE_RATE, FEE_SCALE]
  rw [if_neg (by omega), if_neg (by omega), if_neg (by push_neg; omega)]
  have hm : ((10000 : ℕ) : ℤ) - ((10000 : ℕ) : ℤ) = 0 := by norm_num
  rw [hm, round28Z_zero, mul_zero, round28Z_zero, if_pos rfl]

/-- C9 witness: at `feeRate = 10000`, `amountOut = 5`, `reserveIn = 10`,
`reserveOut = 10` the call reports the division-by-zero signal. -/
theorem amount_in_max_fee_divides_by_zero_witness :
    get_amount_in 10000 5 10 10 = .error .divisionByZero :=
  amount_in_max_fee_divides_by_zero 5 10 10 (by decide) (by decide) (by decide)

/-- C10 (counterexample to the unbounded statement): with an input
amount far beyond the 64-bit range (`amountIn = 10^40`), the rounded
denominator `reserveIn * 10000 + netIn` collapses to `netIn` and the
quotient reaches exactly `reserveOut`: the result is not strictly below
the output reserve (it still passes the overflow check and is
returned). -/
theorem amount_out_can_reach_reserve :
    get_amount_out 9999 (10 ^ 40) 1 7 = .ok 7 ∧ ¬ (7 < 7) :=
  ⟨by decide, by decide⟩

/-- C10 (amended): when the input amount and both reserves lie within
the unsigned 64-bit range — which coin amounts and the pool invariant
guarantee — the non-zero-fee result of `get_amount_out`, `Decimal`
rounding included, is strictly below the output reserve, so the
overflow branch after the division is unreachable and the call
succeeds. -/
theorem amount_out_below_out_reserve (fee aIn rIn rOut : ℕ)
    (hfee0 : 0 < fee) (hfee : fee ≤ 10000) (haIn : 0 < aIn) (hrIn : 0 < rIn)
    (hrOut : 0 < rOut) (haIn64 : aIn ≤ U64_MAX) (hrIn64 : rIn ≤ U64_MAX)
    (hrOut64 : rOut ≤ U64_MAX) :
    ∃ v, get_amount_out fee aIn rIn rOut = .ok v ∧ v < rOut := by
  have hc64 : aIn * (10000 - fee) ≤ U64_MAX * 10000 :=
    Nat.mul_le_mul haIn64 (Nat.sub_le _ _)
  have hc28 : aIn * (10000 - fee) < 10 ^ 28 :=
    lt_of_le_of_lt hc64 (by norm_num [U64_MAX])
  have hr64 : rIn * 10000 ≤ U64_MAX * 10000 := Nat.mul_le_mul hrIn64 le_rfl
  have hD28 : rIn * 10000 + aIn * (10000 - fee) < 10 ^ 28 := by
    calc rIn * 10000 + aIn * (10000 - fee)
        ≤ U64_MAX * 10000 + U64_MAX * 10000 := Nat.add_le_add hr64 hc64
      _ < 10 ^ 28 := by norm_num [U64_MAX]
  have hDpos : 0 < rIn * 10000 + aIn * (10000 - fee) := by positivity
  have hcore : aIn * (10000 - fee) * ((2 * 10 ^ 27 + 1) * (2 * 10 ^ 27 + 1)) <
      (rIn * 10000 + aIn * (10000 - fee)) * ((2 * 10 ^ 27) * (2 * 10 ^ 27)) := by
    have hup : aIn * (10000 - fee) * ((2 * 10 ^ 27 + 1) * (2 * 10 ^ 27 + 1)) =
        aIn * (10000 - fee) * ((2 * 10 ^ 27) * (2 * 10 ^ 27)) +
          aIn * (10000 - fee) * (4 * 10 ^ 27 + 1) := by ring
    have hexp : (rIn * 10000 + aIn * (10000 - fee)) *
          ((2 * 10 ^ 27) * (2 * 10 ^ 27)) =
        aIn * (10000 - fee) * ((2 * 10 ^ 27) * (2 * 10 ^ 27)) +
          rIn * 10000 * ((2 * 10 ^ 27) * (2 * 10 ^ 27)) := by ring
    have hlow : aIn * (10000 - fee) * (4 * 10 ^ 27 + 1) <
        rIn * 10000 * ((2 * 10 ^ 27) * (2 * 10 ^ 27)) := by
      calc aIn * (10000 - fee) * (4 * 10 ^ 27 + 1)
          ≤ U64_MAX * 10000 * (4 * 10 ^ 27 + 1) := Nat.mul_le_mul hc64 le_rfl
        _ < 10000 * ((2 * 10 ^ 27) * (2 * 10 ^ 27)) := by norm_num [U64_MAX]
        _ ≤ rIn * 10000 * ((2 * 10 ^ 27) * (2 * 10 ^ 27)) := by
            have h1 : (10000 : ℕ) ≤ rIn * 10000 := by
              calc (10000 : ℕ) = 1 * 10000 := (one_mul _).symm
                _ ≤ rIn * 10000 := Nat.mul_le_mul hrIn le_rfl
            exact Nat.mul_le_mul h1 le_rfl
    linarith
  have hvlt : divDecMag (round28 (aIn * (10000 - fee) * rOut))
      (rIn * 10000 + aIn * (10000 - fee)) < rOut := by
    apply divDecMag_lt_of _ _ _ hDpos
    have hr := round28_le (aIn * (10000 - fee) * rOut)
    have hstep : round28 (aIn * (10000 - fee) * rOut) * (2 * 10 ^ 27 + 1) *
          (2 * 10 ^ 27) <
        2 * 10 ^ 27 * ((rIn * 10000 + aIn * (10000 - fee)) * rOut) *
          (2 * 10 ^ 27) := by
      calc round28 (aIn * (10000 - fee) * rOut) * (2 * 10 ^ 27 + 1) *
            (2 * 10 ^ 27)
          = round28 (aIn * (10000 - fee) * rOut) * (2 * 10 ^ 27) *
              (2 * 10 ^ 27 + 1) := by ring
        _ ≤ aIn * (10000 - fee) * rOut * (2 * 10 ^ 27 + 1) *
              (2 * 10 ^ 27 + 1) := Nat.mul_le_mul hr le_rfl
        _ = aIn * (10000 - fee) * ((2 * 10 ^ 27 + 1) * (2 * 10 ^ 27 + 1)) *
              rOut := by ring
        _ < (rIn * 10000 + aIn * (10000 - fee)) *
              ((2 * 10 ^ 27) * (2 * 10 ^ 27)) * rOut :=
            mul_lt_mul_of_pos_right hcore hrOut
        _ = 2 * 10 ^ 27 * ((rIn * 10000 + aIn * (10000 - fee)) * rOut) *
              (2 * 10 ^ 27) := by ring
    exact Nat.lt_of_mul_lt_mul_right hstep
  have hok := get_amount_out_eval fee aIn rIn rOut (by omega) hfee (by omega)
    (by omega) (by omega) hc28 hD28 (le_of_lt (lt_of_lt_of_le hvlt hrOut64))
  exact ⟨_, hok, hvlt⟩

/-- C10 (amended) witness: a concrete in-range non-zero-fee call that
succeeds with a result below the output reserve. -/
theorem amount_out_below_out_reserve_witness :
    ∃ v, get_amount_out 30 100000 1000000 2000000 = .ok v ∧ v < 2000000 :=
  amount_out_below_out_reserve 30 100000 1000000 2000000 (by decide) (by decide)
    (by decide) (by decide) (by decide) (by decide) (by decide) (by decide)

/-- Core rearrangement behind the no-under-funding bound: if the computed
input `x` satisfies `rIn * out * 10000 < x * ((rOut - out) * m)`, then
`out` is at most the constant-product quotient of `x`. -/
lemma funds_core_ineq (x m rIn rOut out : ℕ) (hout : out < rOut)
    (key : rIn * out * 10000 < x * ((rOut - out) * m)) :
    out * (rIn * 10000 + x * m) ≤ x * m * rOut := by
  have hsub : (rOut - out) + out = rOut := Nat.sub_add_cancel hout.le
  have e1 : x * ((rOut - out) * m) + x * (out * m) = x * (rOut * m) := by
    rw [← Nat.mul_add, ← Nat.add_mul, hsub]
  have e2 : out * (rIn * 10000 + x * m) = rIn * out * 10000 + x * (out * m) := by
    ring
  rw [e2]
  have hstep : rIn * out * 10000 + x * (out * m) < x * m * rOut := by
    calc rIn * out * 10000 + x * (out * m)
        < x * ((rOut - out) * m) + x * (out * m) := Nat.add_lt_add_right key _
      _ = x * (rOut * m) := e1
      _ = x * m * rOut := by ring
  exact hstep.le

/-- C4 (counterexample to the stated direction): the composition
`get_amount_in(fee, get_amount_out(fee, a, Rin, Rout), Rin, Rout)` is not
bounded below by `a`.  With `fee = 30`, `Rin = Rout = 100` and
`a = 10^9`, the output saturates at `99 = Rout - 1`, and the input
reconstructed for an output of `99` is `9930`, far below `a`. -/
theorem round_trip_lower_bound_fails :
    get_amount_out 30 1000000000 100 100 = .ok 99 ∧
    get_amount_in 30 99 100 100 = .ok 9930 ∧
    ¬ ((1000000000 : ℤ) ≤ 9930) :=
  ⟨by decide, by decide, by decide⟩

/-- C4 (amended): the `+1` ceiling of `get_amount_in` guarantees no
under-funding of the swap in the converse composition, on the domain
where the 28-significant-digit context arithmetic is exact: whenever
`get_amount_in` succeeds on a requested output `out < reserveOut` (with
a 64-bit output reserve) and the products `reserveIn * out * 10000`,
`in * (10000 - fee) * reserveOut` and `reserveIn * 10000 + in *
(10000 - fee)` all stay below `10^28`, feeding the computed input back
into `get_amount_out` succeeds and yields at least `out`. -/
theorem amount_in_funds_requested_output (fee out rIn rOut : ℕ) (inn : ℤ)
    (hlt : out < rOut) (hrOut64 : rOut ≤ U64_MAX)
    (hN1 : rIn * out * 10000 < 10 ^ 28)
    (hok : get_amount_in fee out rIn rOut = .ok inn)
    (hN2 : inn.toNat * (10000 - fee) * rOut < 10 ^ 28)
    (hD2 : rIn * 10000 + inn.toNat * (10000 - fee) < 10 ^ 28) :
    ∃ v, get_amount_out fee inn.toNat rIn rOut = .ok v ∧ out ≤ v := by
  simp only [get_amount_in, MAX_FEE_RATE, FEE_SCALE] at hok
  split_ifs at hok with hfeeHigh hout0 hres h0 hbig
  case _ =>
    -- the successful branch of `get_amount_in`; the error branches are
    -- discharged by `split_ifs` since their equations are absurd
    rw [Except.ok.injEq] at hok
    push_neg at hres
    have hfee10k : fee ≤ 10000 := by omega
    have hout1 : 0 < out := Nat.pos_of_ne_zero hout0
    have hrIn : 0 < rIn := Nat.pos_of_ne_zero hres.1
    have hrOut : 0 < rOut := Nat.pos_of_ne_zero hres.2
    push_cast at hok h0
    have hfeelt : fee < 10000 := by
      rcases Nat.lt_or_ge fee 10000 with h | h
      · exact h
      · exfalso
        apply h0
        have hfe : (10000 : ℤ) - (fee : ℤ) = 0 := by
          have he : fee = 10000 := le_antisymm hfee10k h
          rw [he]
          norm_num
        rw [hfe, round28Z_zero, mul_zero, round28Z_zero]
    have hmpos : 0 < 10000 - fee := by omega
    -- all three Decimal operations inside `get_amount_in` are exact here
    have hro : rIn * out < 10 ^ 28 :=
      lt_of_le_of_lt (Nat.le_mul_of_pos_right _ (by norm_num)) hN1
    have hcast1 : (rIn : ℤ) * (out : ℤ) = ((rIn * out : ℕ) : ℤ) := by
      push_cast
      ring
    have e1 : round28Z ((rIn * out : ℕ) : ℤ) = ((rIn * out : ℕ) : ℤ) := by
      apply round28Z_eq_self
      rw [Int.natAbs_ofNat]
      exact hro
    have hcast2 : ((rIn * out : ℕ) : ℤ) * 10000 =
        ((rIn * out * 10000 : ℕ) : ℤ) := by
      push_cast
      ring
    have e2 : round28Z ((rIn * out * 10000 : ℕ) : ℤ) =
        ((rIn * out * 10000 : ℕ) : ℤ) := by
      apply round28Z_eq_self
      rw [Int.natAbs_ofNat]
      exact hN1
    have hmcast : (10000 : ℤ) - (fee : ℤ) = ((10000 - fee : ℕ) : ℤ) := by omega
    have em : round28Z ((10000 - fee : ℕ) : ℤ) = ((10000 - fee : ℕ) : ℤ) := by
      apply round28Z_eq_self
      rw [Int.natAbs_ofNat]
      exact lt_of_le_of_lt (Nat.sub_le _ _) (by norm_num)
    have hdcast : (rOut : ℤ) - (out : ℤ) = ((rOut - out : ℕ) : ℤ) := by omega
    have ed : round28Z ((rOut - out : ℕ) : ℤ) = ((rOut - out : ℕ) : ℤ) := by
      apply round28Z_eq_self
      rw [Int.natAbs_ofNat]
      exact lt_of_le_of_lt (le_trans (Nat.sub_le _ _) hrOut64)
        (by norm_num [U64_MAX])
    have hprod : ((rOut - out : ℕ) : ℤ) * ((10000 - fee : ℕ) : ℤ) =
        (((rOut - out) * (10000 - fee) : ℕ) : ℤ) := by
      push_cast
      ring
    have eD : round28Z (((rOut - out) * (10000 - fee) : ℕ) : ℤ) =
        (((rOut - out) * (10000 - fee) : ℕ) : ℤ) := by
      apply round28Z_eq_self
      rw [Int.natAbs_ofNat]
      calc (rOut - out) * (10000 - fee) ≤ U64_MAX * 10000 :=
            Nat.mul_le_mul (le_trans (Nat.sub_le _ _) hrOut64) (Nat.sub_le _ _)
        _ < 10 ^ 28 := by norm_num [U64_MAX]
    have hDne : (rOut - out) * (10000 - fee) ≠ 0 :=
      Nat.mul_ne_zero (by omega) (by omega)
    rw [hcast1, e1, hcast2, e2, hmcast, em, hdcast, ed, hprod, eD,
      divDecInt_natCast _ _ hDne] at hok
    have hinn : inn =
        ((divDecMag (rIn * out * 10000) ((rOut - out) * (10000 - fee)) + 1 : ℕ) :
          ℤ) := by
      rw [← hok]
      push_cast
      ring
    have htn : inn.toNat =
        divDecMag (rIn * out * 10000) ((rOut - out) * (10000 - fee)) + 1 := by
      rw [hinn]
      omega
    rw [htn] at hN2 hD2 ⊢
    set x := divDecMag (rIn * out * 10000) ((rOut - out) * (10000 - fee)) + 1
      with hx
    have hxpos : x ≠ 0 := by omega
    have hdpos : 0 < (rOut - out) * (10000 - fee) := Nat.pos_of_ne_zero hDne
    have hND : rIn * out * 10000 < (rOut - out) * (10000 - fee) * 10 ^ 28 :=
      lt_of_lt_of_le hN1 (Nat.le_mul_of_pos_left _ hdpos)
    have hx_ge : rIn * out * 10000 / ((rOut - out) * (10000 - fee)) + 1 ≤ x :=
      Nat.add_le_add_right (divDecMag_ge _ _ hdpos hND) 1
    have key : rIn * out * 10000 < x * ((rOut - out) * (10000 - fee)) := by
      calc rIn * out * 10000
          < (rIn * out * 10000 / ((rOut - out) * (10000 - fee)) + 1) *
              ((rOut - out) * (10000 - fee)) := lt_div_succ_mul _ _ hdpos
        _ ≤ x * ((rOut - out) * (10000 - fee)) := Nat.mul_le_mul hx_ge le_rfl
    have hcore : out * (rIn * 10000 + x * (10000 - fee)) ≤
        x * (10000 - fee) * rOut :=
      funds_core_ineq x (10000 - fee) rIn rOut out hlt key
    have hD2pos : 0 < rIn * 10000 + x * (10000 - fee) := by positivity
    by_cases hf0 : fee = 0
    · -- zero-fee path of `get_amount_out`
      subst hf0
      simp only [Nat.sub_zero] at hcore hN2 hD2
      have hx10 : rOut * x < 10 ^ 28 := by
        have h1 : rOut * x ≤ x * 10000 * rOut := by
          calc rOut * x = x * rOut := Nat.mul_comm _ _
            _ ≤ x * rOut * 10000 := Nat.le_mul_of_pos_right _ (by norm_num)
            _ = x * 10000 * rOut := by ring
        exact lt_of_le_of_lt h1 hN2
      have hxD : rIn + x < 10 ^ 28 := by
        have h1 : rIn + x ≤ rIn * 10000 + x * 10000 := by
          have ha : rIn ≤ rIn * 10000 := Nat.le_mul_of_pos_right _ (by norm_num)
          have hb : x ≤ x * 10000 := Nat.le_mul_of_pos_right _ (by norm_num)
          omega
        exact lt_of_le_of_lt h1 hD2
      refine ⟨divDecMag (rOut * x) (rIn + x),
        get_amount_out_zero_eval x rIn rOut (by omega) hx10 hxD, ?_⟩
      have hfloor : out ≤ rOut * x / (rIn + x) := by
        rw [Nat.le_div_iff_mul_le (by omega : 0 < rIn + x)]
        have h10 : out * (rIn + x) * 10000 ≤ rOut * x * 10000 := by
          calc out * (rIn + x) * 10000
              = out * (rIn * 10000 + x * 10000) := by ring
            _ ≤ x * 10000 * rOut := hcore
            _ = rOut * x * 10000 := by ring
        exact Nat.le_of_mul_le_mul_right h10 (by norm_num)
      refine le_trans hfloor (divDecMag_ge _ _ (by omega) ?_)
      exact lt_of_lt_of_le hx10 (Nat.le_mul_of_pos_left _ (by omega))
    · -- general path of `get_amount_out`
      have hfc : x * (10000 - fee) < 10 ^ 28 :=
        lt_of_le_of_lt (Nat.le_mul_of_pos_right _ hrOut) hN2
      have hr28 : round28 (x * (10000 - fee) * rOut) =
          x * (10000 - fee) * rOut := round28_eq_self hN2
      have hvlt : divDecMag (x * (10000 - fee) * rOut)
          (rIn * 10000 + x * (10000 - fee)) < rOut + 1 := by
        apply divDecMag_lt_of _ _ _ hD2pos
        have hN2lt : x * (10000 - fee) * rOut <
            (rIn * 10000 + x * (10000 - fee)) * rOut := by
          apply mul_lt_mul_of_pos_right _ hrOut
          have hp : 0 < rIn * 10000 := by positivity
          omega
        have hrOsm : rOut < 2 * 10 ^ 27 :=
          lt_of_le_of_lt hrOut64 (by norm_num [U64_MAX])
        have hA : x * (10000 - fee) * rOut * (2 * 10 ^ 27) <
            (rIn * 10000 + x * (10000 - fee)) * rOut * (2 * 10 ^ 27) :=
          mul_lt_mul_of_pos_right hN2lt (by positivity)
        have hB : x * (10000 - fee) * rOut <
            (rIn * 10000 + x * (10000 - fee)) * (2 * 10 ^ 27) := by
          calc x * (10000 - fee) * rOut
              < (rIn * 10000 + x * (10000 - fee)) * rOut := hN2lt
            _ ≤ (rIn * 10000 + x * (10000 - fee)) * (2 * 10 ^ 27) :=
                Nat.mul_le_mul le_rfl hrOsm.le
        have hE : 2 * 10 ^ 27 *
              ((rIn * 10000 + x * (10000 - fee)) * (rOut + 1)) =
            (rIn * 10000 + x * (10000 - fee)) * rOut * (2 * 10 ^ 27) +
              (rIn * 10000 + x * (10000 - fee)) * (2 * 10 ^ 27) := by ring
        have hP : x * (10000 - fee) * rOut * (2 * 10 ^ 27 + 1) =
            x * (10000 - fee) * rOut * (2 * 10 ^ 27) +
              x * (10000 - fee) * rOut := by ring
        linarith
      have hvle : divDecMag (x * (10000 - fee) * rOut)
          (rIn * 10000 + x * (10000 - fee)) ≤ U64_MAX := by
        have hle : divDecMag (x * (10000 - fee) * rOut)
            (rIn * 10000 + x * (10000 - fee)) ≤ rOut := by omega
        exact le_trans hle hrOut64
      have heval := get_amount_out_eval fee x rIn rOut hf0 hfee10k hxpos
        (by omega) (by omega) hfc hD2 (by rw [hr28]; exact hvle)
      rw [hr28] at heval
      refine ⟨_, heval, ?_⟩
      have hfloor : out ≤
          x * (10000 - fee) * rOut / (rIn * 10000 + x * (10000 - fee)) := by
        rw [Nat.le_div_iff_mul_le hD2pos]
        exact hcore
      refine le_trans hfloor (divDecMag_ge _ _ hD2pos ?_)
      exact lt_of_lt_of_le hN2 (Nat.le_mul_of_pos_left _ hD2pos)

/-- C4 (amended) witness: at `fee = 30`, `out = 99`, `Rin = Rout = 100`
the computed input `9930` funds an output of at least `99`. -/
theorem amount_in_funds_requested_output_witness :
    ∃ v, get_amount_out 30 (Int.toNat 9930) 100 100 = .ok v ∧ 99 ≤ v :=
  amount_in_funds_requested_output 30 99 100 100 9930 (by decide) (by decide)
    (by decide) (by decide) (by decide) (by decide)

/-! ## Liquidity provision never reaches a call descriptor -/

/-- Once its validations pass and a pool is found, the post-sort body of
`add_liquidity` stops with the modelled `AttributeError` of the
`pool.bal_x.value` read (`client.py` line 139; the `Pool` of `types.py`
stores the balances as plain ints). -/
lemma add_liquidity_sorted_attr (wallet : String → List CoinObj)
    (getPool : String → Option Pool) (pool_id tx ty : String) (u v : ℤ)
    (s : ℚ) (p : Pool) (hu : 0 < u) (hv : 0 < v) (hs0 : 0 ≤ s) (hs1 : s < 1)
    (hp : getPool pool_id = some p) :
    add_liquidity_sorted wallet getPool pool_id tx ty u v s =
      .error .attributeError := by
  simp only [add_liquidity_sorted]
  rw [if_neg (by push_neg; omega),
    if_neg (by push_neg; exact ⟨hs1, hs0⟩), hp]

/-- C6 (refuting evaluation): there are no call descriptors to compare.
For every argument order, once the canonical sort finishes, the
validations pass and the pool is found, `add_liquidity` raises
`AttributeError` at the `pool.bal_x.value` read (`client.py` line 139):
the `Pool` of `types.py` stores plain-int balances (its own test asserts
`pool.bal_x == 1000`), so the operation never builds a `move_call`.
Both argument orders end in the same failure, but the claimed
descriptor equality is about a path the program does not have. -/
theorem add_liquidity_builds_no_descriptor (wallet : String → List CoinObj)
    (getPool : String → Option Pool) (pool_id x y : String) (ax ay : ℤ)
    (s : ℚ) (p : Pool) (hax : 0 < ax) (hay : 0 < ay) (hs0 : 0 ≤ s)
    (hs1 : s < 1) (hp : getPool pool_id = some p) :
    add_liquidity_call wallet getPool pool_id x y ax ay s =
        .error .attributeError ∧
      add_liquidity_call wallet getPool pool_id y x ay ax s =
        .error .attributeError := by
  constructor
  · simp only [add_liquidity_call]
    by_cases hsw : (sort_type x y).1 ≠ x
    · rw [if_pos hsw]
      exact add_liquidity_sorted_attr wallet getPool pool_id _ _ _ _ s p
        hay hax hs0 hs1 hp
    · rw [if_neg hsw]
      exact add_liquidity_sorted_attr wallet getPool pool_id _ _ _ _ s p
        hax hay hs0 hs1 hp
  · simp only [add_liquidity_call]
    by_cases hsw : (sort_type y x).1 ≠ y
    · rw [if_pos hsw]
      exact add_liquidity_sorted_attr wallet getPool pool_id _ _ _ _ s p
        hax hay hs0 hs1 hp
    · rw [if_neg hsw]
      exact add_liquidity_sorted_attr wallet getPool pool_id _ _ _ _ s p
        hay hax hs0 hs1 hp

/-- C6 witness: on a concrete wallet, pool and pair of token types, both
argument orders stop with the `AttributeError` and no call descriptor
exists. -/
theorem add_liquidity_builds_no_descriptor_witness :
    add_liquidity_call demoWallet demoGetPool "0xpool"
        "0xa::coins::USDC" "0xb::coins::WSOL" 300000 400000 (1/200) =
        .error .attributeError ∧
      add_liquidity_call demoWallet demoGetPool "0xpool"
        "0xb::coins::WSOL" "0xa::coins::USDC" 400000 300000 (1/200) =
        .error .attributeError :=
  add_liquidity_builds_no_descriptor demoWallet demoGetPool "0xpool"
    "0xa::coins::USDC" "0xb::coins::WSOL" 300000 400000 (1/200)
    ⟨1000000, 2000000, 10, 20, 100000, 30, 1⟩ (by decide) (by decide)
    (by norm_num) (by norm_num) rfl

/-! ## Coin selection -/

/-- `balSum` on the empty list. -/
lemma balSum_nil : balSum [] = 0 := rfl

/-- `balSum` on a cons. -/
lemma balSum_cons (c : CoinObj) (l : List CoinObj) :
    balSum (c :: l) = c.balance + balSum l := by
  simp [balSum]

/-- The selection loop stops at the first index whose running total
reaches the requested amount. -/
lemma selectLoop_stops_at_first (amount : ℤ) :
    ∀ (coins : List CoinObj) (sel : List String) (tot : ℤ) (k : ℕ),
      1 ≤ k → k ≤ coins.length →
      (∀ j, j < k → tot + balSum (coins.take j) < amount) →
      amount ≤ tot + balSum (coins.take k) →
      selectLoop amount coins sel tot =
        (sel ++ (coins.take k).map (fun c => c.coinObjectId),
          tot + balSum (coins.take k)) := by
  intro coins
  induction coins with
  | nil =>
    intro sel tot k hk1 hklen _ _
    simp at hklen
    omega
  | cons c cs ih =>
    intro sel tot k hk1 hklen hmin hreach
    simp only [selectLoop]
    cases k with
    | zero => omega
    | succ k' =>
      simp only [List.take_succ_cons, List.map_cons, balSum_cons] at hreach ⊢
      cases k' with
      | zero =>
        simp only [List.take_zero, balSum_nil, List.map_nil] at hreach ⊢
        rw [if_pos (by omega)]
        simp
      | succ k'' =>
        have hlt1 : ¬ (tot + c.balance ≥ amount) := by
          have := hmin 1 (by omega)
          simp [balSum_cons, balSum_nil] at this
          omega
        rw [if_neg hlt1]
        have hrec := ih (sel ++ [c.coinObjectId]) (tot + c.balance) (k'' + 1)
          (by omega) (by simpa using hklen)
          (by
            intro j hj
            have := hmin (j + 1) (by omega)
            simp only [List.take_succ_cons, balSum_cons] at this
            omega)
          (by omega)
        rw [hrec]
        simp [List.append_assoc]
        omega

/-- If no prefix total reaches the amount, the loop exhausts the list. -/
lemma selectLoop_exhausts (amount : ℤ) :
    ∀ (coins : List CoinObj) (sel : List String) (tot : ℤ),
      (∀ j, j ≤ coins.length → tot + balSum (coins.take j) < amount) →
      selectLoop amount coins sel tot =
        (sel ++ coins.map (fun c => c.coinObjectId), tot + balSum coins) := by
  intro coins
  induction coins with
  | nil =>
    intro sel tot _
    simp [selectLoop, balSum_nil]
  | cons c cs ih =>
    intro sel tot hall
    simp only [selectLoop, List.map_cons, balSum_cons]
    have hlt1 : ¬ (tot + c.balance ≥ amount) := by
      have := hall 1 (by simp)
      simp [balSum_cons, balSum_nil] at this
      omega
    rw [if_neg hlt1]
    have hrec := ih (sel ++ [c.coinObjectId]) (tot + c.balance)
      (by
        intro j hj
        have := hall (j + 1) (by simpa using hj)
        simp only [List.take_succ_cons, balSum_cons] at this
        omega)
    rw [hrec]
    simp [List.append_assoc]
    omega

/-- C7 (counterexample to the stated generality): for a requested amount
of `0` the empty prefix already reaches the threshold, yet the loop
selects the first coin anyway; and on an empty enumeration the failure
is the distinct "no coins available" error, not the insufficient-balance
one. -/
theorem split_coin_shortest_violated :
    (split_coin (fun _ => [⟨"0xc1", 5⟩]) "T" 0 = .ok (["0xc1"], 0) ∧
      (0 : ℤ) ≤ balSum (([⟨"0xc1", 5⟩] : List CoinObj).take 0)) ∧
    split_coin (fun _ => ([] : List CoinObj)) "T" 3 = .error .noCoins :=
  ⟨⟨by decide, by decide⟩, by decide⟩

/-- C7 (amended): for every positive requested amount and nonempty coin
enumeration, `_split_coin` selects exactly the shortest prefix whose
balance total reaches the amount — stopping as soon as the threshold is
met — and fails with the insufficient-balance error, selecting nothing
for splitting, when even the whole list falls short. -/
theorem split_coin_selects_shortest (coins : List CoinObj) (ty : String)
    (amount : ℤ) (hamt : 1 ≤ amount) (hne : coins ≠ []) :
    (∀ k, k ≤ coins.length → (∀ j, j < k → balSum (coins.take j) < amount) →
        amount ≤ balSum (coins.take k) →
        split_coin (fun _ => coins) ty amount =
          .ok ((coins.take k).map (fun c => c.coinObjectId), amount)) ∧
    ((∀ k, k ≤ coins.length → balSum (coins.take k) < amount) →
        split_coin (fun _ => coins) ty amount = .error .insufficientBalance) := by
  constructor
  · intro k hklen hmin hreach
    have hk1 : 1 ≤ k := by
      rcases Nat.eq_zero_or_pos k with h0 | h1
      · subst h0
        simp [balSum_nil] at hreach
        omega
      · exact h1
    unfold split_coin
    rw [if_neg hne]
    rw [selectLoop_stops_at_first amount coins [] 0 k hk1 hklen
      (by intro j hj; simpa using hmin j hj) (by simpa using hreach)]
    have hmapne : (coins.take k).map (fun c => c.coinObjectId) ≠ [] := by
      simp only [ne_eq, List.map_eq_nil_iff, List.take_eq_nil_iff]
      push_neg
      exact ⟨by omega, hne⟩
    rw [if_neg (by
      push_neg
      refine ⟨by simpa using hmapne, by simpa using hreach⟩)]
    simp
  · intro hall
    unfold split_coin
    rw [if_neg hne]
    rw [selectLoop_exhausts amount coins [] 0
      (by intro j hj; simpa using hall j hj)]
    rw [if_pos (by
      right
      have := hall coins.length le_rfl
      simpa [List.take_length] using this)]

/-- C7 (amended) witness: with coins of balances `2` and `3` and a
requested amount of `4`, exactly the two-element prefix is selected. -/
theorem split_coin_selects_shortest_witness :
    split_coin (fun _ => [⟨"0xa", 2⟩, ⟨"0xb", 3⟩]) "T" 4 =
      .ok (["0xa", "0xb"], 4) := by
  have h := (split_coin_selects_shortest [⟨"0xa", 2⟩, ⟨"0xb", 3⟩] "T" 4
    (by decide) (by decide)).1 2 (by decide)
    (by decide) (by decide)
  simpa using h

/-! ## The catch-all wrapper -/

/-- Any body outcome becomes one of the two documented dictionaries. -/
lemma runResult_caught (r : Except DexError String) : Caught (runResult r) := by
  cases r with
  | ok d => exact Or.inl rfl
  | error e => exact Or.inr ⟨rfl, rfl, rfl⟩

/-- C8: none of the four public trading operations propagates an
exception: on every input — invalid amounts or slippage, missing pools,
math errors, collaborator failures — each either succeeds or returns the
dictionary with `tx_id = ""`, `status = False` and an error string
(despite the docstrings advertising a raised `ValueError`). -/
theorem trading_ops_never_raise
    (submit : CallDescriptor → Except DexError String)
    (wallet : String → List CoinObj) (getPool : String → Option Pool)
    (pool_id tx ty : String) (ax ay lp ain aout : ℤ) (s : ℚ) :
    Caught (add_liquidity submit wallet getPool pool_id tx ty ax ay s) ∧
    Caught (remove_liquidity submit wallet getPool pool_id tx ty lp) ∧
    Caught (swap_exact_in submit wallet getPool pool_id tx ty ain s) ∧
    Caught (swap_exact_out submit wallet getPool pool_id tx ty aout s) :=
  ⟨runResult_caught _, runResult_caught _, runResult_caught _, runResult_caught _⟩

end Dipcoin
